import Mathlib

/-!
Verification of the additive autoencoder experiment script
(`Additive_Auto_Encoder_Pytorch_Base_1`).

The script compares PCA against a single weight-tied ("1-Sym") autoencoder
layer on the Wine dataset: it prescales the data, sweeps the hidden
dimension, trains the autoencoder on the PCA residual for each hidden size,
and records root-mean-squared reconstruction errors.

The embedding below models:
* the prescaling step (column min/max/mean, the near-constant-column guard,
  and the affine rescaling `X = (Data - m) * cofs`);
* the forward pass of `OneSymAutoencoder` over real matrices;
* the training loop `train_sffn` as an explicit state machine, generic in
  the ordered type of loss values (the actual loss values produced by
  autodiff and Adam are abstracted as a sequence), including the reference
  semantics of `best_state = model.state_dict()` (PyTorch `state_dict`
  returns references to the live parameter tensors, so the saved dict
  aliases the parameters that the optimizer keeps mutating);
* the hidden-dimension sweep and the results dictionary saved after each
  sweep iteration.

Floating-point arithmetic is modelled by exact real arithmetic.
-/

namespace AAE

/-! ### Prescaling (script section 3) -/

/-- Column minimum `Data.min(axis=0)` of a matrix with at least one row. -/
noncomputable def minD {N n0 : ℕ} (Data : Matrix (Fin (N + 1)) (Fin n0) ℝ) (j : Fin n0) : ℝ :=
  Finset.univ.inf' Finset.univ_nonempty (fun i => Data i j)

/-- Column maximum `Data.max(axis=0)` of a matrix with at least one row. -/
noncomputable def maxD {N n0 : ℕ} (Data : Matrix (Fin (N + 1)) (Fin n0) ℝ) (j : Fin n0) : ℝ :=
  Finset.univ.sup' Finset.univ_nonempty (fun i => Data i j)

/-- Column mean `Data.mean(axis=0)`. -/
noncomputable def colMean {N n0 : ℕ} (Data : Matrix (Fin (N + 1)) (Fin n0) ℝ) (j : Fin n0) : ℝ :=
  (∑ i, Data i j) / (N + 1)

/-- Machine epsilon of IEEE double precision, `np.finfo(float).eps = 2^-52`. -/
noncomputable def epsFloat : ℝ := (2 : ℝ) ^ (-52 : ℤ)

/-- The guard threshold `np.sqrt(np.finfo(float).eps)`. -/
noncomputable def sqrtEps : ℝ := Real.sqrt epsFloat

/-- Condition of the early-termination guard:
`np.any(np.abs(maxD - minD) < np.sqrt(np.finfo(float).eps))`. -/
def guardFires {N n0 : ℕ} (Data : Matrix (Fin (N + 1)) (Fin n0) ℝ) : Prop :=
  ∃ j : Fin n0, |maxD Data j - minD Data j| < sqrtEps

/-- Scaling coefficients `cofs = 2.0 / (maxD - minD)`. -/
noncomputable def cofs {N n0 : ℕ} (Data : Matrix (Fin (N + 1)) (Fin n0) ℝ) (j : Fin n0) : ℝ :=
  2 / (maxD Data j - minD Data j)

/-- The prescaled data `X = (Data - m) * cofs` (broadcast over rows). -/
noncomputable def prescaleX {N n0 : ℕ} (Data : Matrix (Fin (N + 1)) (Fin n0) ℝ) :
    Matrix (Fin (N + 1)) (Fin n0) ℝ :=
  Matrix.of fun i j => (Data i j - colMean Data j) * cofs Data j

open Classical in
/-- The preprocessing step: the script terminates (`none`) when the guard
fires, and otherwise proceeds with the prescaled matrix `X`. -/
noncomputable def prescaleResult {N n0 : ℕ} (Data : Matrix (Fin (N + 1)) (Fin n0) ℝ) :
    Option (Matrix (Fin (N + 1)) (Fin n0) ℝ) :=
  if guardFires Data then none else some (prescaleX Data)

/-! ### The 1-Sym autoencoder (script section 5) -/

/-- Logistic sigmoid, as computed by `torch.sigmoid`. -/
noncomputable def sigmoid (z : ℝ) : ℝ := 1 / (1 + Real.exp (-z))

/-- Hidden activation of the autoencoder: `2*sigmoid(2*z) - 1`. -/
noncomputable def act (z : ℝ) : ℝ := 2 * sigmoid (2 * z) - 1

/-- Forward pass of `OneSymAutoencoder`:
`z = W @ x^T`, `hidden = 2*sigmoid(2*z)-1`, `out = (W^T @ hidden)^T`. -/
noncomputable def oneSymForward {h d b : ℕ} (W : Matrix (Fin h) (Fin d) ℝ)
    (x : Matrix (Fin b) (Fin d) ℝ) : Matrix (Fin b) (Fin d) ℝ :=
  (W.transpose * Matrix.of (fun i j => act ((W * x.transpose) i j))).transpose

/-! ### The training loop `train_sffn` (script section 6)

The loop is modelled as a state machine generic in a linearly ordered type
`α` of loss values.  The loss observed at the k-th mini-batch update
(0-indexed) is abstracted as `losses k`; `nb` is the number of mini-batches
the data loader yields per epoch.  `best_loss = float('inf')` is modelled by
`Option α` with `none` standing for infinity.  `bestIdx` is ghost
instrumentation recording the value of `num_iter` at the update step at
which `best_loss`/`best_state` were last assigned (`0` while
`best_state is None`). -/

/-- State of the `train_sffn` loop. -/
structure TrainState (α : Type) where
  bestLoss : Option α
  bestIdx : ℕ
  lossValues : List α
  numIter : ℕ
  epochs : ℕ
  deriving Repr, DecidableEq

/-- Initial state: `best_loss = inf`, `best_state = None`, `loss_values = []`,
`num_iter = 0`, before any epoch has run. -/
def initState (α : Type) : TrainState α :=
  { bestLoss := none, bestIdx := 0, lossValues := [], numIter := 0, epochs := 0 }

/-- The comparison `cur_loss < best_loss` where `best_loss` may be infinity. -/
def ltBest {α : Type} [LinearOrder α] (cur : α) : Option α → Bool
  | none => true
  | some b => cur < b

/-- The comparison `best_loss < tol` where `best_loss` may be infinity. -/
def bestBelowTol {α : Type} [LinearOrder α] (best : Option α) (tol : α) : Bool :=
  match best with
  | none => false
  | some b => b < tol

/-- The break condition `best_loss < tol or num_iter >= max_iters`, checked
after every mini-batch update and again after every epoch. -/
def stopCond {α : Type} [LinearOrder α] (tol : α) (maxIters : ℕ) (s : TrainState α) : Bool :=
  bestBelowTol s.bestLoss tol || maxIters ≤ s.numIter

/-- One mini-batch update: `num_iter += 1`, compute the loss, append it to
`loss_values`, and update `best_loss`/`best_state` when the loss improved. -/
def batchStep {α : Type} [LinearOrder α] (losses : ℕ → α) (s : TrainState α) : TrainState α :=
  let cur := losses s.numIter
  { bestLoss := if ltBest cur s.bestLoss then some cur else s.bestLoss
    bestIdx := if ltBest cur s.bestLoss then s.numIter + 1 else s.bestIdx
    lossValues := s.lossValues ++ [cur]
    numIter := s.numIter + 1
    epochs := s.epochs }

/-- The inner loop `for batch in loader`, running at most `nb` mini-batch
updates and breaking as soon as `stopCond` holds after an update. -/
def runBatches {α : Type} [LinearOrder α] (losses : ℕ → α) (tol : α) (maxIters : ℕ) :
    ℕ → TrainState α → TrainState α
  | 0, s => s
  | nb + 1, s =>
    if stopCond tol maxIters (batchStep losses s) then batchStep losses s
    else runBatches losses tol maxIters nb (batchStep losses s)

/-- Advance the epoch counter (ghost instrumentation for the epoch bound). -/
def bumpEpoch {α : Type} (s : TrainState α) : TrainState α :=
  { s with epochs := s.epochs + 1 }

/-- The outer loop `for epoch in range(10000)` (the fuel argument counts the
remaining epochs), breaking when `stopCond` holds after an epoch. -/
def runEpochs {α : Type} [LinearOrder α] (losses : ℕ → α) (tol : α) (maxIters nb : ℕ) :
    ℕ → TrainState α → TrainState α
  | 0, s => s
  | e + 1, s =>
    if stopCond tol maxIters (bumpEpoch (runBatches losses tol maxIters nb s)) then
      bumpEpoch (runBatches losses tol maxIters nb s)
    else runEpochs losses tol maxIters nb e (bumpEpoch (runBatches losses tol maxIters nb s))

/-- The whole of `train_sffn`: run the epoch loop with its hard cap of
10000 epochs from the initial state. -/
def trainSFFN {α : Type} [LinearOrder α] (losses : ℕ → α) (tol : α) (maxIters nb : ℕ) :
    TrainState α :=
  runEpochs losses tol maxIters nb 10000 (initState α)

/-- Model parameters that `model.load_state_dict(best_state)` installs after
training, given the abstract trajectory `paramsAt k` of the parameters after
`k` optimizer steps.  Because `model.state_dict()` returns references to the
live parameter tensors (not copies), the saved `best_state` aliases the
parameters that `optimizer.step()` keeps mutating in place, so at return
time it holds the parameters after the final step, `paramsAt s.numIter` —
not the parameters at the step recorded in `bestIdx`. -/
def loadedParams {α σ : Type} (paramsAt : ℕ → σ) (s : TrainState α) : σ :=
  paramsAt s.numIter

/-! ### The hidden-dimension sweep and saved results (script sections 2 and 7) -/

/-- Upper end of the hidden-dimension range, `int(0.6 * n0) + 1`
(`floor(0.6*n0)+1`, computed here in exact arithmetic). -/
def nredfin (n0 : ℕ) : ℕ := 6 * n0 / 10 + 1

/-- The swept hidden sizes `HidDims = list(range(1, nredfin + 1, 1))`. -/
def HidDims (n0 : ℕ) : List ℕ := List.range' 1 (nredfin n0)

/-- The results dictionary serialized by `torch.save` after each sweep
iteration; its fields are exactly the keys
`DataName, N, n0, nred, PCAErr, AEErrs`. -/
structure ResultsDict (α : Type) where
  DataName : String
  N : ℕ
  n0 : ℕ
  nred : ℕ
  PCAErr : List α
  AEErrs : List α
  deriving Repr, DecidableEq

/-- The sequence of dictionaries saved over the sweep: each iteration on
hidden size `nred` appends `pcaErr nred` to `PCAErr` and `aeErr nred` to
`AEErrs` (the two errors computed for that hidden size, abstracted as
functions of `nred`) and then saves the dictionary.  The accumulators `P`
and `A` carry the lists built by the previous iterations. -/
def savedDicts {α : Type} (dn : String) (N n0 : ℕ) (pcaErr aeErr : ℕ → α) :
    List ℕ → List α → List α → List (ResultsDict α)
  | [], _, _ => []
  | nred :: rest, P, A =>
    let P' := P ++ [pcaErr nred]
    let A' := A ++ [aeErr nred]
    { DataName := dn, N := N, n0 := n0, nred := nred, PCAErr := P', AEErrs := A' } ::
      savedDicts dn N n0 pcaErr aeErr rest P' A'

/-- The dictionaries saved over the whole sweep of the script, in order. -/
def sweepSaves {α : Type} (dn : String) (N n0 : ℕ) (pcaErr aeErr : ℕ → α) :
    List (ResultsDict α) :=
  savedDicts dn N n0 pcaErr aeErr (HidDims n0) [] []

/-! ### Reconstruction errors (script section 7) -/

/-- Mean of the entrywise squares of a matrix, `(M**2).mean()`. -/
noncomputable def meanSq {N n0 : ℕ} (M : Matrix (Fin N) (Fin n0) ℝ) : ℝ :=
  (∑ i, ∑ j, M i j ^ 2) / (N * n0)

/-- The residual handed to the autoencoder, `Xrest = X - PCArecon`. -/
def residual {N n0 : ℕ} (X PCArecon : Matrix (Fin N) (Fin n0) ℝ) :
    Matrix (Fin N) (Fin n0) ℝ :=
  X - PCArecon

/-- The autoencoder error stored in `AEErrs`:
`final_rmse = sqrt(((AEOut - Xrest)**2).mean())`. -/
noncomputable def finalRmse {N n0 : ℕ} (X PCArecon AEOut : Matrix (Fin N) (Fin n0) ℝ) : ℝ :=
  Real.sqrt (meanSq (AEOut - residual X PCArecon))

/-- The PCA error stored in `PCAErr`:
`pca_rmse = sqrt(((X - PCArecon)**2).mean())`. -/
noncomputable def pcaRmse {N n0 : ℕ} (X PCArecon : Matrix (Fin N) (Fin n0) ℝ) : ℝ :=
  Real.sqrt (meanSq (X - PCArecon))

/-- Root-mean-squared difference between two matrices, as the spec defines
reconstruction error: `sqrt(mean((A - B)^2))` over all entries. -/
noncomputable def rmse {N n0 : ℕ} (A B : Matrix (Fin N) (Fin n0) ℝ) : ℝ :=
  Real.sqrt (meanSq (A - B))

/-! ## Helper lemmas about the training loop -/

lemma batchStep_numIter {α : Type} [LinearOrder α] (losses : ℕ → α) (s : TrainState α) :
    (batchStep losses s).numIter = s.numIter + 1 := rfl

lemma batchStep_epochs {α : Type} [LinearOrder α] (losses : ℕ → α) (s : TrainState α) :
    (batchStep losses s).epochs = s.epochs := rfl

lemma stopCond_false_lt {α : Type} [LinearOrder α] {tol : α} {maxIters : ℕ} {s : TrainState α}
    (h : stopCond tol maxIters s = false) : s.numIter < maxIters := by
  simp only [stopCond, Bool.or_eq_false_iff, decide_eq_false_iff_not, not_le] at h
  exact h.2

lemma runBatches_numIter_le {α : Type} [LinearOrder α] (losses : ℕ → α) (tol : α)
    (maxIters : ℕ) :
    ∀ (nb : ℕ) (s : TrainState α), s.numIter < maxIters →
      (runBatches losses tol maxIters nb s).numIter ≤ maxIters := by
  intro nb
  induction nb with
  | zero => intro s hs; exact Nat.le_of_lt hs
  | succ n ih =>
    intro s hs
    rw [runBatches]
    split
    · rw [batchStep_numIter]; omega
    · next hstop =>
      have hstop' : stopCond tol maxIters (batchStep losses s) = false := by
        simpa using hstop
      exact ih _ (stopCond_false_lt hstop')

lemma runBatches_epochs {α : Type} [LinearOrder α] (losses : ℕ → α) (tol : α) (maxIters : ℕ) :
    ∀ (nb : ℕ) (s : TrainState α), (runBatches losses tol maxIters nb s).epochs = s.epochs := by
  intro nb
  induction nb with
  | zero => intro s; rfl
  | succ n ih =>
    intro s
    rw [runBatches]
    split
    · rfl
    · rw [ih]; rfl

lemma runBatches_full {α : Type} [LinearOrder α] (losses : ℕ → α) (tol : α) (maxIters : ℕ) :
    ∀ (nb : ℕ) (s : TrainState α),
      stopCond tol maxIters (runBatches losses tol maxIters nb s) = false →
      (runBatches losses tol maxIters nb s).numIter = s.numIter + nb := by
  intro nb
  induction nb with
  | zero => intro s _; rfl
  | succ n ih =>
    intro s hs
    rw [runBatches] at hs ⊢
    split
    · next hstop =>
      rw [if_pos hstop] at hs
      rw [hstop] at hs
      exact absurd hs (by simp)
    · next hstop =>
      rw [if_neg hstop] at hs
      rw [ih _ hs, batchStep_numIter]
      omega

lemma bumpEpoch_numIter {α : Type} (s : TrainState α) :
    (bumpEpoch s).numIter = s.numIter := rfl

lemma stopCond_bumpEpoch {α : Type} [LinearOrder α] (tol : α) (maxIters : ℕ)
    (s : TrainState α) : stopCond tol maxIters (bumpEpoch s) = stopCond tol maxIters s := rfl

lemma runEpochs_numIter_le {α : Type} [LinearOrder α] (losses : ℕ → α) (tol : α)
    (maxIters nb : ℕ) :
    ∀ (e : ℕ) (s : TrainState α), s.numIter < maxIters →
      (runEpochs losses tol maxIters nb e s).numIter ≤ maxIters := by
  intro e
  induction e with
  | zero => intro s hs; exact Nat.le_of_lt hs
  | succ n ih =>
    intro s hs
    rw [runEpochs]
    split
    · rw [bumpEpoch_numIter]
      exact runBatches_numIter_le losses tol maxIters nb s hs
    · next hstop =>
      have hstop' : stopCond tol maxIters (bumpEpoch (runBatches losses tol maxIters nb s)) =
          false := by simpa using hstop
      exact ih _ (stopCond_false_lt hstop')

lemma runEpochs_epochs_le {α : Type} [LinearOrder α] (losses : ℕ → α) (tol : α)
    (maxIters nb : ℕ) :
    ∀ (e : ℕ) (s : TrainState α),
      (runEpochs losses tol maxIters nb e s).epochs ≤ s.epochs + e := by
  intro e
  induction e with
  | zero => intro s; simp [runEpochs]
  | succ n ih =>
    intro s
    rw [runEpochs]
    split
    · show (runBatches losses tol maxIters nb s).epochs + 1 ≤ s.epochs + (n + 1)
      rw [runBatches_epochs]
      omega
    · calc (runEpochs losses tol maxIters nb n
              (bumpEpoch (runBatches losses tol maxIters nb s))).epochs
          ≤ (bumpEpoch (runBatches losses tol maxIters nb s)).epochs + n := ih _
        _ = (runBatches losses tol maxIters nb s).epochs + 1 + n := rfl
        _ ≤ s.epochs + (n + 1) := by rw [runBatches_epochs]; omega

lemma runEpochs_full {α : Type} [LinearOrder α] (losses : ℕ → α) (tol : α) (maxIters nb : ℕ) :
    ∀ (e : ℕ) (s : TrainState α),
      stopCond tol maxIters (runEpochs losses tol maxIters nb e s) = false →
      (runEpochs losses tol maxIters nb e s).numIter = s.numIter + e * nb := by
  intro e
  induction e with
  | zero => intro s _; simp [runEpochs]
  | succ n ih =>
    intro s hs
    rw [runEpochs] at hs ⊢
    split
    · next hstop =>
      rw [if_pos hstop, hstop] at hs
      exact absurd hs (by simp)
    · next hstop =>
      rw [if_neg hstop] at hs
      rw [ih _ hs, bumpEpoch_numIter]
      have hstop2 : stopCond tol maxIters (runBatches losses tol maxIters nb s) = false := by
        rw [← stopCond_bumpEpoch]
        simpa using hstop
      rw [runBatches_full losses tol maxIters nb s hstop2]
      ring

/-- Invariant of the training loop: `loss_values` has one entry per update,
and `best_loss` is the minimum of `loss_values` (infinity exactly while no
update has happened). -/
def goodState {α : Type} [LinearOrder α] (s : TrainState α) : Prop :=
  s.lossValues.length = s.numIter ∧
    ((s.bestLoss = none ∧ s.lossValues = []) ∨
      ∃ b, s.bestLoss = some b ∧ b ∈ s.lossValues ∧ ∀ x ∈ s.lossValues, b ≤ x)

lemma goodState_init {α : Type} [LinearOrder α] : goodState (initState α) := by
  constructor
  · rfl
  · left; exact ⟨rfl, rfl⟩

lemma goodState_batchStep {α : Type} [LinearOrder α] (losses : ℕ → α) (s : TrainState α)
    (h : goodState s) : goodState (batchStep losses s) := by
  obtain ⟨hlen, hbest⟩ := h
  have hval : (batchStep losses s).lossValues = s.lossValues ++ [losses s.numIter] := rfl
  constructor
  · rw [hval, batchStep_numIter]
    simp [hlen]
  · right
    rcases hbest with ⟨hnone, hnil⟩ | ⟨b, hb, hmem, hle⟩
    · refine ⟨losses s.numIter, ?_, ?_, ?_⟩
      · show (if ltBest (losses s.numIter) s.bestLoss then some (losses s.numIter)
            else s.bestLoss) = some (losses s.numIter)
        rw [hnone]
        rfl
      · rw [hval]
        simp
      · intro x hx
        rw [hval, hnil] at hx
        simp at hx
        exact le_of_eq hx.symm
    · by_cases hlt : losses s.numIter < b
      · refine ⟨losses s.numIter, ?_, ?_, ?_⟩
        · show (if ltBest (losses s.numIter) s.bestLoss then some (losses s.numIter)
              else s.bestLoss) = some (losses s.numIter)
          rw [hb]
          simp [ltBest, hlt]
        · rw [hval]
          simp
        · intro x hx
          rw [hval] at hx
          rcases List.mem_append.1 hx with hx | hx
          · exact le_of_lt (lt_of_lt_of_le hlt (hle x hx))
          · simp at hx
            exact le_of_eq hx.symm
      · refine ⟨b, ?_, ?_, ?_⟩
        · show (if ltBest (losses s.numIter) s.bestLoss then some (losses s.numIter)
              else s.bestLoss) = some b
          rw [hb]
          simp [ltBest, hlt]
        · rw [hval]
          exact List.mem_append.2 (Or.inl hmem)
        · intro x hx
          rw [hval] at hx
          rcases List.mem_append.1 hx with hx | hx
          · exact hle x hx
          · simp at hx
            rw [hx]
            exact not_lt.1 hlt

lemma goodState_runBatches {α : Type} [LinearOrder α] (losses : ℕ → α) (tol : α)
    (maxIters : ℕ) :
    ∀ (nb : ℕ) (s : TrainState α), goodState s →
      goodState (runBatches losses tol maxIters nb s) := by
  intro nb
  induction nb with
  | zero => intro s hs; exact hs
  | succ n ih =>
    intro s hs
    rw [runBatches]
    split
    · exact goodState_batchStep losses s hs
    · exact ih _ (goodState_batchStep losses s hs)

lemma goodState_bumpEpoch {α : Type} [LinearOrder α] (s : TrainState α)
    (h : goodState s) : goodState (bumpEpoch s) := h

lemma goodState_runEpochs {α : Type} [LinearOrder α] (losses : ℕ → α) (tol : α)
    (maxIters nb : ℕ) :
    ∀ (e : ℕ) (s : TrainState α), goodState s →
      goodState (runEpochs losses tol maxIters nb e s) := by
  intro e
  induction e with
  | zero => intro s hs; exact hs
  | succ n ih =>
    intro s hs
    rw [runEpochs]
    split
    · exact goodState_bumpEpoch _ (goodState_runBatches losses tol maxIters nb s hs)
    · exact ih _ (goodState_bumpEpoch _ (goodState_runBatches losses tol maxIters nb s hs))

lemma goodState_trainSFFN {α : Type} [LinearOrder α] (losses : ℕ → α) (tol : α)
    (maxIters nb : ℕ) : goodState (trainSFFN losses tol maxIters nb) :=
  goodState_runEpochs losses tol maxIters nb 10000 (initState α) goodState_init

/-! ## Claim theorems -/

/-- C1: for every weight matrix `W : [hidden_dim, input_dim]` and input
batch `x : [batch_size, input_dim]`, `OneSymAutoencoder.forward(x)` returns
`(W^T · (2·sigmoid(2·(W · x^T)) − 1))^T`; entrywise, output `(r, c)` is
`∑ k, W k c * act (∑ l, W k l * x r l)`, so the decoder weight is exactly
the transpose of the encoder weight `W` and no bias term is added
anywhere. -/
theorem C1_forward_weight_tied {h d b : ℕ} (W : Matrix (Fin h) (Fin d) ℝ)
    (x : Matrix (Fin b) (Fin d) ℝ) :
    oneSymForward W x = (W.transpose * (W * x.transpose).map act).transpose ∧
    ∀ (r : Fin b) (c : Fin d),
      oneSymForward W x r c = ∑ k : Fin h, W k c * act (∑ l : Fin d, W k l * x r l) := by
  refine ⟨rfl, fun r c => ?_⟩
  simp [oneSymForward, Matrix.mul_apply, Matrix.transpose_apply, Matrix.of_apply]

/-- C10: the hidden activation `2*sigmoid(2*z) - 1` of the autoencoder
equals `2/(1 + exp(-2z)) - 1` and equals `tanh z`, so the network's
nonlinearity is exactly the hyperbolic tangent. -/
theorem C10_activation_is_tanh (z : ℝ) :
    act z = 2 / (1 + Real.exp (-(2 * z))) - 1 ∧ act z = Real.tanh z := by
  have key : act z = 2 / (1 + Real.exp (-(2 * z))) - 1 := by
    unfold act sigmoid
    rw [mul_one_div]
  refine ⟨key, ?_⟩
  rw [key]
  have ha := Real.exp_pos z
  have hb := Real.exp_pos (-z)
  have hab : Real.exp z * Real.exp (-z) = 1 := by
    rw [← Real.exp_add]
    simp
  have h2 : Real.exp (-(2 * z)) = Real.exp (-z) * Real.exp (-z) := by
    rw [← Real.exp_add]
    congr 1
    ring
  rw [Real.tanh_eq_sinh_div_cosh, Real.sinh_eq, Real.cosh_eq, h2]
  have hd1 : (1 : ℝ) + Real.exp (-z) * Real.exp (-z) ≠ 0 := by positivity
  have hd2 : Real.exp z + Real.exp (-z) ≠ 0 := by positivity
  field_simp
  nlinarith [hab]

/-- C2: `train_sffn` terminates (the embedding is a total function); when
`max_iters ≥ 1` (the script passes `max_iters = 5000`), the returned
`num_iter` never exceeds `max_iters`, i.e. at most `max_iters` mini-batch
gradient updates are performed, and the outer epoch loop runs at most
10000 epochs. -/
theorem C2_train_bounded {α : Type} [LinearOrder α] (losses : ℕ → α) (tol : α)
    (maxIters nb : ℕ) (hmi : 1 ≤ maxIters) :
    (trainSFFN losses tol maxIters nb).numIter ≤ maxIters ∧
    (trainSFFN losses tol maxIters nb).epochs ≤ 10000 := by
  constructor
  · exact runEpochs_numIter_le losses tol maxIters nb 10000 (initState α) hmi
  · have h := runEpochs_epochs_le losses tol maxIters nb 10000 (initState α)
    simpa [initState] using h

/-- Witness for C2 at a concrete run: constant loss 5, tolerance 0,
`max_iters = 3`, two batches per epoch. -/
theorem C2_witness :
    1 ≤ 3 ∧ ((trainSFFN (fun _ => (5 : ℤ)) 0 3 2).numIter ≤ 3 ∧
      (trainSFFN (fun _ => (5 : ℤ)) 0 3 2).epochs ≤ 10000) :=
  ⟨by decide, C2_train_bounded (fun _ => (5 : ℤ)) 0 3 2 (by decide)⟩

/-- C3: on a non-empty dataset (at least one mini-batch per epoch, and the
iteration cap reachable within the 10000-epoch hard cap, true of the
script's `max_iters = 5000`), `train_sffn` returns only with
`best_loss < tol` or with `num_iter = max_iters`; it never returns with
`best_loss ≥ tol` and `num_iter < max_iters`. -/
theorem C3_exit_reason {α : Type} [LinearOrder α] (losses : ℕ → α) (tol : α)
    (maxIters nb : ℕ) (hnb : 1 ≤ nb) (hmi : 1 ≤ maxIters) (hcap : maxIters ≤ 10000 * nb) :
    bestBelowTol (trainSFFN losses tol maxIters nb).bestLoss tol = true ∨
      (trainSFFN losses tol maxIters nb).numIter = maxIters := by
  by_cases hstop : stopCond tol maxIters (trainSFFN losses tol maxIters nb) = true
  · simp only [stopCond, Bool.or_eq_true, decide_eq_true_eq] at hstop
    rcases hstop with h | h
    · exact Or.inl h
    · right
      have h2 := runEpochs_numIter_le losses tol maxIters nb 10000 (initState α) hmi
      exact le_antisymm h2 h
  · exfalso
    have hstop' : stopCond tol maxIters (trainSFFN losses tol maxIters nb) = false := by
      simpa using hstop
    have hfull : (trainSFFN losses tol maxIters nb).numIter = 0 + 10000 * nb :=
      runEpochs_full losses tol maxIters nb 10000 (initState α) hstop'
    have hlt := stopCond_false_lt hstop'
    rw [hfull] at hlt
    omega

/-- Witness for C3 at a concrete run: constant loss 5, tolerance 0,
`max_iters = 2`, one batch per epoch; the run exits with
`num_iter = max_iters`. -/
theorem C3_witness :
    (1 ≤ 1 ∧ 1 ≤ 2 ∧ 2 ≤ 10000 * 1) ∧
      (bestBelowTol (trainSFFN (fun _ => (5 : ℤ)) 0 2 1).bestLoss 0 = true ∨
        (trainSFFN (fun _ => (5 : ℤ)) 0 2 1).numIter = 2) :=
  ⟨⟨by decide, by decide, by decide⟩,
    C3_exit_reason (fun _ => (5 : ℤ)) 0 2 1 (by decide) (by decide) (by decide)⟩

/-- C4: whenever `train_sffn` performs at least one mini-batch update, the
returned `best_loss` is finite and equals the minimum of the returned list
`loss_values`, and the length of `loss_values` equals the returned
`num_iter`. -/
theorem C4_best_is_min {α : Type} [LinearOrder α] (losses : ℕ → α) (tol : α)
    (maxIters nb : ℕ) (h : 1 ≤ (trainSFFN losses tol maxIters nb).numIter) :
    (trainSFFN losses tol maxIters nb).lossValues.length =
        (trainSFFN losses tol maxIters nb).numIter ∧
      ∃ b, (trainSFFN losses tol maxIters nb).bestLoss = some b ∧
        b ∈ (trainSFFN losses tol maxIters nb).lossValues ∧
        ∀ x ∈ (trainSFFN losses tol maxIters nb).lossValues, b ≤ x := by
  obtain ⟨hlen, hbest⟩ := goodState_trainSFFN losses tol maxIters nb
  refine ⟨hlen, ?_⟩
  rcases hbest with ⟨hnone, hnil⟩ | hb
  · exfalso
    rw [hnil] at hlen
    simp at hlen
    omega
  · exact hb

/-- Witness for C4 at a concrete run with losses 3, 1, 2 over one epoch of
three batches: the returned best loss is the minimum of the recorded
losses. -/
theorem C4_witness :
    1 ≤ (trainSFFN (fun k => if k = 0 then (3 : ℤ) else if k = 1 then 1 else 2) 0 3 3).numIter ∧
      ((trainSFFN (fun k => if k = 0 then (3 : ℤ) else if k = 1 then 1 else 2)
            0 3 3).lossValues.length =
          (trainSFFN (fun k => if k = 0 then (3 : ℤ) else if k = 1 then 1 else 2) 0 3 3).numIter ∧
        ∃ b, (trainSFFN (fun k => if k = 0 then (3 : ℤ) else if k = 1 then 1 else 2)
              0 3 3).bestLoss = some b ∧
          b ∈ (trainSFFN (fun k => if k = 0 then (3 : ℤ) else if k = 1 then 1 else 2)
              0 3 3).lossValues ∧
          ∀ x ∈ (trainSFFN (fun k => if k = 0 then (3 : ℤ) else if k = 1 then 1 else 2)
              0 3 3).lossValues, b ≤ x) :=
  ⟨by decide,
    C4_best_is_min (fun k => if k = 0 then (3 : ℤ) else if k = 1 then 1 else 2) 0 3 3 (by decide)⟩

/-- C5: the claim says `best_state` holds the parameters as they were
immediately after the update step that achieved `best_loss`.  The code
saves `best_state = model.state_dict()` without a deep copy; `state_dict`
returns references to the live parameter tensors, which `optimizer.step()`
keeps mutating in place, so the saved dict holds the parameters after the
final update instead.  This contradicts the function's own docstring
("best_model_state: the state_dict of the best model").  Concrete failing
run: two updates with losses 5 then 7 and parameter trajectory
`paramsAt k = k`: the best update is step 1, yet the state loaded at the
end is `paramsAt 2`, not `paramsAt 1`. -/
theorem C5_best_state_aliasing :
    (trainSFFN (fun k => if k = 0 then (5 : ℤ) else 7) 0 2 2).bestIdx = 1 ∧
    (trainSFFN (fun k => if k = 0 then (5 : ℤ) else 7) 0 2 2).numIter = 2 ∧
    loadedParams (fun k => k) (trainSFFN (fun k => if k = 0 then (5 : ℤ) else 7) 0 2 2) = 2 ∧
    loadedParams (fun k => k) (trainSFFN (fun k => if k = 0 then (5 : ℤ) else 7) 0 2 2) ≠ 1 := by
  decide

/-- C6: the PCA entry appended to `PCAErr` is the RMSE between the
prescaled data `X` and its PCA reconstruction, and the autoencoder entry
appended to `AEErrs` is the RMSE between `X` and the additive
reconstruction `PCArecon + AEOut` (the autoencoder reconstructs the
residual `Xrest = X - PCArecon`, so the combined model reconstructing `X`
is `PCArecon + AEOut`); both are `sqrt(mean((X - reconstruction)^2))` over
all entries. -/
theorem C6_reported_errors_are_rmse {N n0 : ℕ} (X PCArecon AEOut : Matrix (Fin N) (Fin n0) ℝ) :
    pcaRmse X PCArecon = rmse X PCArecon ∧
    finalRmse X PCArecon AEOut = rmse X (PCArecon + AEOut) := by
  refine ⟨rfl, ?_⟩
  unfold finalRmse rmse meanSq residual
  congr 2
  apply Finset.sum_congr rfl
  intro i _
  apply Finset.sum_congr rfl
  intro j _
  simp only [Matrix.sub_apply, Matrix.add_apply]
  ring

/-! ## Helper lemmas for the sweep and the prescaling guard -/

lemma savedDicts_length {α : Type} (dn : String) (Nv n0v : ℕ) (pca ae : ℕ → α) :
    ∀ (l : List ℕ) (P A : List α), (savedDicts dn Nv n0v pca ae l P A).length = l.length := by
  intro l
  induction l with
  | nil => intro P A; rfl
  | cons x rest ih =>
    intro P A
    rw [savedDicts]
    simp [ih]

lemma savedDicts_get? {α : Type} (dn : String) (Nv n0v : ℕ) (pca ae : ℕ → α) :
    ∀ (l : List ℕ) (P A : List α) (i : ℕ) (h : i < l.length),
      (savedDicts dn Nv n0v pca ae l P A).get? i = some
        { DataName := dn, N := Nv, n0 := n0v,
          nred := l.get ⟨i, h⟩,
          PCAErr := P ++ (l.take (i + 1)).map pca,
          AEErrs := A ++ (l.take (i + 1)).map ae } := by
  intro l
  induction l with
  | nil =>
    intro P A i h
    exact absurd h (by simp)
  | cons x rest ih =>
    intro P A i h
    match i with
    | 0 =>
      rw [savedDicts]
      simp
    | j + 1 =>
      rw [savedDicts]
      have hj : j < rest.length := by
        simpa using h
      rw [List.get?_cons_succ, ih _ _ j hj]
      simp

lemma sqrtEps_pos : 0 < sqrtEps := by
  rw [sqrtEps]
  apply Real.sqrt_pos.2
  unfold epsFloat
  positivity

lemma notGuard_col_ne {N n0 : ℕ} (Data : Matrix (Fin (N + 1)) (Fin n0) ℝ)
    (hg : ¬ guardFires Data) (j : Fin n0) : maxD Data j - minD Data j ≠ 0 := by
  have hj : ¬ |maxD Data j - minD Data j| < sqrtEps := fun hlt => hg ⟨j, hlt⟩
  have habs : 0 < |maxD Data j - minD Data j| := lt_of_lt_of_le sqrtEps_pos (not_lt.1 hj)
  exact abs_pos.1 habs

lemma sup'_affine {N : ℕ} (f : Fin (N + 1) → ℝ) (a c : ℝ) (hc : 0 ≤ c) :
    (Finset.univ.sup' Finset.univ_nonempty fun i => (f i - a) * c) =
      (Finset.univ.sup' Finset.univ_nonempty f - a) * c := by
  apply le_antisymm
  · apply Finset.sup'_le
    intro i _
    have h1 : f i ≤ Finset.univ.sup' Finset.univ_nonempty f :=
      Finset.le_sup' f (Finset.mem_univ i)
    nlinarith
  · obtain ⟨i0, _, h0⟩ := Finset.exists_mem_eq_sup' Finset.univ_nonempty f
    rw [h0]
    exact Finset.le_sup' (fun i => (f i - a) * c) (Finset.mem_univ i0)

lemma inf'_affine {N : ℕ} (f : Fin (N + 1) → ℝ) (a c : ℝ) (hc : 0 ≤ c) :
    (Finset.univ.inf' Finset.univ_nonempty fun i => (f i - a) * c) =
      (Finset.univ.inf' Finset.univ_nonempty f - a) * c := by
  apply le_antisymm
  · obtain ⟨i0, _, h0⟩ := Finset.exists_mem_eq_inf' Finset.univ_nonempty f
    rw [h0]
    exact Finset.inf'_le (fun i => (f i - a) * c) (Finset.mem_univ i0)
  · apply Finset.le_inf'
    intro i _
    have h1 : Finset.univ.inf' Finset.univ_nonempty f ≤ f i :=
      Finset.inf'_le f (Finset.mem_univ i)
    nlinarith

/-- Concrete two-row, one-column data used to witness the prescaling
claims: the single feature column takes values 0 and 2. -/
noncomputable def data2 : Matrix (Fin 2) (Fin 1) ℝ :=
  Matrix.of fun i _ => if i = 0 then 0 else 2

lemma data2_not_guard : ¬ guardFires data2 := by
  rintro ⟨j, hj⟩
  have hj0 : j = 0 := Subsingleton.elim j 0
  subst hj0
  have hmax : (2 : ℝ) ≤ maxD data2 0 := by
    have h1 : data2 1 0 ≤ maxD data2 0 :=
      Finset.le_sup' (fun i => data2 i 0) (Finset.mem_univ 1)
    have h2 : data2 1 0 = 2 := by simp [data2]
    rw [h2] at h1
    exact h1
  have hmin : minD data2 0 ≤ 0 := by
    have h1 : minD data2 0 ≤ data2 0 0 :=
      Finset.inf'_le (fun i => data2 i 0) (Finset.mem_univ 0)
    have h2 : data2 0 0 = 0 := by simp [data2]
    rw [h2] at h1
    exact h1
  have hse : sqrtEps ≤ 1 := by
    rw [sqrtEps]
    refine Real.sqrt_le_one.2 ?_
    unfold epsFloat
    exact zpow_le_one_of_nonpos₀ (by norm_num) (by norm_num)
  have h2d : (2 : ℝ) ≤ maxD data2 0 - minD data2 0 := by linarith
  have habs : (2 : ℝ) ≤ |maxD data2 0 - minD data2 0| :=
    le_trans h2d (le_abs_self _)
  linarith

/-- C7: the sweep covers every integer from 1 to `floor(0.6*n0)+1` in
increasing order; after the (0-indexed) iteration `i`, the saved results
dictionary — whose fields are exactly the keys
`DataName, N, n0, nred, PCAErr, AEErrs`, by the shape of `ResultsDict` —
has `nred` equal to the `i`-th element of the sweep, and `PCAErr` and
`AEErrs` are the lists of the errors of the first `i+1` hidden sizes in
sweep order, each of length `i+1`. -/
theorem C7_saved_results {α : Type} (dn : String) (Nv n0v : ℕ) (pca ae : ℕ → α) (i : ℕ)
    (hi : i < (HidDims n0v).length) :
    (∀ k, k ∈ HidDims n0v ↔ 1 ≤ k ∧ k ≤ nredfin n0v) ∧
    List.Pairwise (· < ·) (HidDims n0v) ∧
    (sweepSaves dn Nv n0v pca ae).length = (HidDims n0v).length ∧
    (sweepSaves dn Nv n0v pca ae).get? i = some
      { DataName := dn, N := Nv, n0 := n0v,
        nred := (HidDims n0v).get ⟨i, hi⟩,
        PCAErr := ((HidDims n0v).take (i + 1)).map pca,
        AEErrs := ((HidDims n0v).take (i + 1)).map ae } ∧
    (((HidDims n0v).take (i + 1)).map pca).length = i + 1 ∧
    (((HidDims n0v).take (i + 1)).map ae).length = i + 1 := by
  have hlen : (HidDims n0v).length = nredfin n0v := by
    rw [HidDims, List.length_range']
  refine ⟨?_, ?_, ?_, ?_, ?_, ?_⟩
  · intro k
    rw [HidDims, List.mem_range'_1]
    omega
  · exact List.pairwise_lt_range' 1 (nredfin n0v)
  · rw [sweepSaves, savedDicts_length]
  · rw [sweepSaves, savedDicts_get? dn Nv n0v pca ae (HidDims n0v) [] [] i hi]
    simp
  · rw [List.length_map, List.length_take]
    omega
  · rw [List.length_map, List.length_take]
    omega

/-- Witness for C7 on the Wine configuration: `n0 = 13`, so the sweep is
`[1, ..., 8]`; at iteration `i = 2` the saved dictionary holds `nred = 3`
and the first three errors. -/
theorem C7_witness :
    2 < (HidDims 13).length ∧
      ((∀ k, k ∈ HidDims 13 ↔ 1 ≤ k ∧ k ≤ nredfin 13) ∧
        List.Pairwise (· < ·) (HidDims 13) ∧
        (sweepSaves "Wine" 178 13 (fun n => (n : ℤ)) (fun n => (100 : ℤ) + n)).length =
          (HidDims 13).length ∧
        (sweepSaves "Wine" 178 13 (fun n => (n : ℤ)) (fun n => (100 : ℤ) + n)).get? 2 = some
          { DataName := "Wine", N := 178, n0 := 13,
            nred := (HidDims 13).get ⟨2, by decide⟩,
            PCAErr := ((HidDims 13).take 3).map (fun n => (n : ℤ)),
            AEErrs := ((HidDims 13).take 3).map (fun n => (100 : ℤ) + n) } ∧
        (((HidDims 13).take 3).map (fun n => (n : ℤ))).length = 3 ∧
        (((HidDims 13).take 3).map (fun n => (100 : ℤ) + n)).length = 3) :=
  ⟨by decide, C7_saved_results "Wine" 178 13 (fun n => (n : ℤ)) (fun n => (100 : ℤ) + n) 2
    (by decide)⟩

/-- C8: the script terminates during preprocessing exactly when some
feature column has range `|max - min|` below `sqrt(machine epsilon)`;
whenever it proceeds, every divisor `maxD - minD` in the scaling
coefficients `cofs = 2/(maxD - minD)` is nonzero. -/
theorem C8_guard {N n0 : ℕ} (Data : Matrix (Fin (N + 1)) (Fin n0) ℝ) :
    (prescaleResult Data = none ↔ guardFires Data) ∧
    ∀ X0, prescaleResult Data = some X0 → ∀ j, maxD Data j - minD Data j ≠ 0 := by
  by_cases hg : guardFires Data
  · constructor
    · simp [prescaleResult, hg]
    · intro X0 h0
      rw [prescaleResult, if_pos hg] at h0
      exact absurd h0 (by simp)
  · constructor
    · simp [prescaleResult, hg]
    · intro X0 h0 j
      exact notGuard_col_ne Data hg j

/-- Witness for C8: on `data2` (one column with values 0 and 2) the guard
does not fire, the script proceeds, and the divisor is nonzero. -/
theorem C8_witness :
    prescaleResult data2 = some (prescaleX data2) ∧
      maxD data2 0 - minD data2 0 ≠ 0 := by
  have hsome : prescaleResult data2 = some (prescaleX data2) := by
    rw [prescaleResult, if_neg data2_not_guard]
  exact ⟨hsome, (C8_guard data2).2 (prescaleX data2) hsome 0⟩

/-- C9: when the near-constant-column guard does not fire, the prescaled
matrix `X = (Data - m) * cofs` has, in exact real arithmetic, every feature
column of mean exactly 0 and of range `max - min` exactly 2. -/
theorem C9_prescaled_mean_range {N n0 : ℕ} (Data : Matrix (Fin (N + 1)) (Fin n0) ℝ)
    (hg : ¬ guardFires Data) (j : Fin n0) :
    colMean (prescaleX Data) j = 0 ∧
    maxD (prescaleX Data) j - minD (prescaleX Data) j = 2 := by
  have hN : ((N : ℝ) + 1) ≠ 0 := by positivity
  have hd0 : maxD Data j - minD Data j ≠ 0 := notGuard_col_ne Data hg j
  have hle : minD Data j ≤ maxD Data j := by
    calc minD Data j ≤ Data 0 j := Finset.inf'_le (fun i => Data i j) (Finset.mem_univ 0)
      _ ≤ maxD Data j := Finset.le_sup' (fun i => Data i j) (Finset.mem_univ 0)
  have hdpos : 0 < maxD Data j - minD Data j :=
    lt_of_le_of_ne (by linarith) (Ne.symm hd0)
  have hcpos : 0 ≤ cofs Data j := by
    rw [cofs]
    exact div_nonneg (by norm_num) (le_of_lt hdpos)
  constructor
  · have hsum : ∑ i, (Data i j - colMean Data j) = 0 := by
      rw [Finset.sum_sub_distrib, Finset.sum_const, Finset.card_univ, Fintype.card_fin,
        colMean]
      field_simp
    have hXsum : (∑ i, prescaleX Data i j) =
        (∑ i, (Data i j - colMean Data j)) * cofs Data j := by
      rw [Finset.sum_mul]
      rfl
    rw [colMean, hXsum, hsum, zero_mul, zero_div]
  · have hmax : maxD (prescaleX Data) j =
        (maxD Data j - colMean Data j) * cofs Data j := by
      exact sup'_affine (fun i => Data i j) (colMean Data j) (cofs Data j) hcpos
    have hmin : minD (prescaleX Data) j =
        (minD Data j - colMean Data j) * cofs Data j := by
      exact inf'_affine (fun i => Data i j) (colMean Data j) (cofs Data j) hcpos
    rw [hmax, hmin, cofs]
    field_simp
    ring

/-- Witness for C9: on `data2` the guard does not fire, and the prescaled
column has mean 0 and range 2. -/
theorem C9_witness :
    ¬ guardFires data2 ∧
      (colMean (prescaleX data2) 0 = 0 ∧
        maxD (prescaleX data2) 0 - minD (prescaleX data2) 0 = 2) :=
  ⟨data2_not_guard, C9_prescaled_mean_range data2 data2_not_guard 0⟩

end AAE
